import Mathlib

/-!
Shallow embedding of the shazam-golang audio fingerprinting core
(pkg/audio/pcm.go, pkg/audio/spectral.go, the fingerprint peak extractor,
and the audio utility functions), together with theorems settling the
frozen claims about it.

Go `float64` arithmetic is modelled by exact arithmetic: the PCM and
spectral pipeline is embedded over `ℝ`, and the peak extractor, which only
compares and multiplies amplitudes, is embedded over an arbitrary
`LinearOrderedField` so concrete instances can be evaluated over `ℚ`.
Go `int` sizes and indices are modelled by `ℕ` (the one place where a Go
loop bound can become negative, `maxFreqIndex` in `ExtractPeaks`, is
modelled by `ℤ`).  Go slice indexing is modelled by `List.getD` with
default `0`, and fallible functions return `Option`.
-/

namespace Shazam

/-- `AudioData` from pkg/audio/audio.go: samples, sample rate, channel
count and duration. -/
structure AudioData where
  Samples    : List ℝ
  SampleRate : ℕ
  Channels   : ℕ
  Duration   : ℝ

/-- `Spectrogram` from pkg/audio/audio.go, generic in the amplitude type
so that concrete instances can be evaluated over `ℚ`; the Go code uses
`float64`, modelled by `ℝ`. -/
structure Spectrogram (α : Type) where
  Data       : List (List α)
  FreqBins   : ℕ
  TimeBins   : ℕ
  TimePoints : List α
  FreqPoints : List α
deriving DecidableEq

/-! ## PCM processor (pkg/audio/pcm.go) -/

/-- The running maximum-absolute-value loop of `Normalize`
(pcm.go lines 57-64): `maxAbs` starts at `0` and is replaced by `|sample|`
whenever `|sample| > maxAbs`. -/
noncomputable def maxAbsSamples (samples : List ℝ) : ℝ :=
  samples.foldl (fun m s => if m < |s| then |s| else m) 0

/-- `Normalize` from pcm.go lines 52-83.  Empty input is returned
unchanged; if the maximum absolute value is below `1e-3` or within `1e-3`
of `1`, the input is returned unchanged; otherwise every sample is divided
by the maximum.  The Go function never returns an error, so the embedding
is a total function. -/
noncomputable def Normalize (data : AudioData) : AudioData :=
  if data.Samples.isEmpty then data
  else
    let maxAbs := maxAbsSamples data.Samples
    if maxAbs < 1e-3 ∨ |maxAbs - 1| < 1e-3 then data
    else
      { Samples    := data.Samples.map (fun s => s / maxAbs)
        SampleRate := data.SampleRate
        Channels   := data.Channels
        Duration   := data.Duration }

/-- `ResampleTo` from pcm.go lines 86-141: linear-interpolation
resampling.  When the target rate equals the input's rate the input is
returned unchanged; otherwise for output frame `i` and channel `ch` the
source position is `i / ratio`, the two nearest source frames are clamped
to `[0, origFrames-1]` and linearly interpolated.  Go `int(...)` truncation
of the non-negative products is modelled by `Int.toNat ∘ Int.floor`. -/
noncomputable def ResampleTo (data : AudioData) (targetSampleRate : ℕ) : AudioData :=
  if data.SampleRate = targetSampleRate then data
  else
    let ratio : ℝ := (targetSampleRate : ℝ) / (data.SampleRate : ℝ)
    let origFrames := data.Samples.length / data.Channels
    let newFrames := (⌊(origFrames : ℝ) * ratio⌋).toNat
    let resampled := (List.range (newFrames * data.Channels)).map (fun idx =>
      let i := idx / data.Channels
      let ch := idx % data.Channels
      let origPos : ℝ := (i : ℝ) / ratio
      let idx1 : ℤ := ⌊origPos⌋
      let idx2 : ℤ := idx1 + 1
      let frac : ℝ := origPos - (idx1 : ℝ)
      let idx1c : ℤ := if (origFrames : ℤ) ≤ idx1 then (origFrames : ℤ) - 1 else idx1
      let idx2c : ℤ := if (origFrames : ℤ) ≤ idx2 then (origFrames : ℤ) - 1 else idx2
      let sample1 := data.Samples.getD (idx1c.toNat * data.Channels + ch) 0
      let sample2 := data.Samples.getD (idx2c.toNat * data.Channels + ch) 0
      sample1 * (1 - frac) + sample2 * frac)
    { Samples    := resampled
      SampleRate := targetSampleRate
      Channels   := data.Channels
      Duration   := (newFrames : ℝ) / (targetSampleRate : ℝ) }

/-- `SegmentIntoFrames` from pcm.go lines 144-182, with the processor's
`FrameSize` and `HopSize` fields passed explicitly.  Fails (`none`) when
there are fewer samples than one frame; otherwise produces
`1 + (N - frameSize) / hopSize` frames, frame `i` starting at sample
`i * hopSize`; sampling past the end of the input yields the zero padding
of the Go code (`List.getD` with default `0`). -/
def SegmentIntoFrames (samples : List ℝ) (frameSize hopSize : ℕ) :
    Option (List (List ℝ)) :=
  if samples.length < frameSize then none
  else
    let numFrames := 1 + (samples.length - frameSize) / hopSize
    some ((List.range numFrames).map (fun i =>
      (List.range frameSize).map (fun j => samples.getD (i * hopSize + j) 0)))

/-! ## Audio utilities (utils, src/unnamed/part_001) -/

/-- The shared sum-of-squares loop of `CalculateRMS` and
`CalculateEnergy`. -/
def sumSquares (samples : List ℝ) : ℝ :=
  samples.foldl (fun acc s => acc + s * s) 0

/-- `CalculateRMS` from the audio utilities: `0` on the empty slice, else
the square root of the mean of the squares. -/
noncomputable def CalculateRMS (samples : List ℝ) : ℝ :=
  if samples.isEmpty then 0
  else Real.sqrt (sumSquares samples / (samples.length : ℝ))

/-- `CalculateEnergy` from the audio utilities: `0` on the empty slice,
else the sum of the squares. -/
def CalculateEnergy (samples : List ℝ) : ℝ :=
  if samples.isEmpty then 0
  else sumSquares samples

/-! ## Spectral analyzer (pkg/audio/spectral.go) -/

/-- `SpectralAnalyzerImpl` from spectral.go lines 16-28. -/
structure SpectralAnalyzerImpl where
  WindowSize    : ℕ
  HopSize       : ℕ
  SampleRate    : ℕ
  WindowType    : String
  MinFreq       : ℝ
  MaxFreq       : ℝ
  LogScaleBase  : ℝ
  NormalizeSpec : Bool
  MelScale      : Bool
  NumMelBins    : ℕ

/-- `NewSpectralAnalyzer` from spectral.go lines 31-44: the default
configuration. -/
noncomputable def NewSpectralAnalyzer : SpectralAnalyzerImpl :=
  { WindowSize    := 1024
    HopSize       := 512
    SampleRate    := 44100
    WindowType    := "hamming"
    MinFreq       := 0
    MaxFreq       := 22050
    LogScaleBase  := 10
    NormalizeSpec := true
    MelScale      := false
    NumMelBins    := 128 }

/-- The window coefficient `w(n)` of `ApplyWindow` (spectral.go lines
58-88) for a frame of length `N`: Hamming, Hann, Blackman or rectangular,
with the `default` branch falling back to Hamming.  The Go code divides by
`float64(N-1)`; over `ℝ` the `N = 1` case divides by zero (Go would
produce NaN there), which no claim exercises. -/
noncomputable def windowCoeff (windowType : String) (N : ℕ) (i : ℕ) : ℝ :=
  if windowType = "hamming" then
    0.54 - 0.46 * Real.cos (2 * Real.pi * (i : ℝ) / ((N : ℝ) - 1))
  else if windowType = "hann" then
    0.5 * (1 - Real.cos (2 * Real.pi * (i : ℝ) / ((N : ℝ) - 1)))
  else if windowType = "blackman" then
    0.42 - 0.5 * Real.cos (2 * Real.pi * (i : ℝ) / ((N : ℝ) - 1))
      + 0.08 * Real.cos (4 * Real.pi * (i : ℝ) / ((N : ℝ) - 1))
  else if windowType = "rectangular" then 1
  else
    0.54 - 0.46 * Real.cos (2 * Real.pi * (i : ℝ) / ((N : ℝ) - 1))

/-- `ApplyWindow` from spectral.go lines 47-91.  A frame whose length is
not `WindowSize` is first truncated/zero-padded to `WindowSize` (the Go
`copy` into a fresh slice); the result is the pointwise product with the
window coefficients. -/
noncomputable def ApplyWindow (s : SpectralAnalyzerImpl) (frame : List ℝ) : List ℝ :=
  let resized := frame.take s.WindowSize ++
    List.replicate (s.WindowSize - frame.length) 0
  (List.range s.WindowSize).map
    (fun i => resized.getD i 0 * windowCoeff s.WindowType s.WindowSize i)

/-- The discrete Fourier transform computed by the go-dsp `fft.FFT` the
source calls in `ComputeFFT` (spectral.go lines 94-103):
`X[k] = Σ_n x[n] · exp(−2πi·k·n/N)`. -/
noncomputable def dft (x : List ℂ) : List ℂ :=
  (List.range x.length).map (fun (k : ℕ) =>
    ∑ n ∈ Finset.range x.length,
      x.getD n 0 * Complex.exp (-(2 * (Real.pi : ℂ) * Complex.I * (k : ℂ) * (n : ℂ)) / (x.length : ℂ)))

/-- `ComputeFFT` from spectral.go lines 94-103: the samples are lifted to
complex numbers and transformed. -/
noncomputable def ComputeFFT (windowedFrame : List ℝ) : List ℂ :=
  dft (windowedFrame.map (fun v => (v : ℂ)))

/-- `ComputePowerSpectrum` from spectral.go lines 121-133: the squared
magnitudes of the first `len/2 + 1` FFT bins. -/
noncomputable def ComputePowerSpectrum (fftResult : List ℂ) : List ℝ :=
  (List.range (fftResult.length / 2 + 1)).map
    (fun i => Complex.abs (fftResult.getD i 0) ^ 2)

/-- `ApplyLogScale` from spectral.go lines 136-149: identity when
`LogScaleBase ≤ 1`, else `log(v + 1e-10) / log(base)` per entry. -/
noncomputable def ApplyLogScale (s : SpectralAnalyzerImpl) (spectrum : List ℝ) : List ℝ :=
  if s.LogScaleBase ≤ 1 then spectrum
  else spectrum.map (fun v => Real.log (v + 1e-10) / Real.log s.LogScaleBase)

/-- The running-maximum loop of `NormalizeSpectrum` (spectral.go lines
153-159), starting from `0`. -/
noncomputable def spectrumMax (spectrum : List ℝ) : ℝ :=
  spectrum.foldl (fun m v => if m < v then v else m) 0

/-- `NormalizeSpectrum` from spectral.go lines 152-173: identity when the
running maximum is below `1e-10`, else division of every entry by it. -/
noncomputable def NormalizeSpectrum (spectrum : List ℝ) : List ℝ :=
  if spectrumMax spectrum < 1e-10 then spectrum
  else spectrum.map (fun v => v / spectrumMax spectrum)

/-- The per-frame processing pipeline of `ComputeSpectrogram`
(spectral.go lines 208-230): window, FFT, power spectrum, optional log
scaling, optional normalization. -/
noncomputable def processFrame (s : SpectralAnalyzerImpl) (frame : List ℝ) : List ℝ :=
  let powerSpectrum := ComputePowerSpectrum (ComputeFFT (ApplyWindow s frame))
  let scaled := if 1 < s.LogScaleBase then ApplyLogScale s powerSpectrum else powerSpectrum
  if s.NormalizeSpec then NormalizeSpectrum scaled else scaled

/-- `ComputeSpectrogram` from spectral.go lines 176-251.  The Go method
mutates its receiver (`WindowSize`, `HopSize`, `SampleRate`), so the
embedding returns the updated analyzer alongside the result: positive
`windowSize`/`hopSize` arguments overwrite the stored configuration, the
call fails on non-mono input, the sample rate is taken from the input,
and the frames produced by `SegmentIntoFrames` are processed one by one.
`TimePoints[i] = i·HopSize/SampleRate` and
`FreqPoints[i] = i·SampleRate/WindowSize`. -/
noncomputable def ComputeSpectrogram (s0 : SpectralAnalyzerImpl) (data : AudioData)
    (windowSize hopSize : ℕ) : SpectralAnalyzerImpl × Option (Spectrogram ℝ) :=
  let s1 := if 0 < windowSize then { s0 with WindowSize := windowSize } else s0
  let s2 := if 0 < hopSize then { s1 with HopSize := hopSize } else s1
  if data.Channels ≠ 1 then (s2, none)
  else
    let s := { s2 with SampleRate := data.SampleRate }
    match SegmentIntoFrames data.Samples s.WindowSize s.HopSize with
    | none => (s, none)
    | some frames =>
      let numFrames := frames.length
      let numBins := s.WindowSize / 2 + 1
      let spectrogramData := frames.map (processFrame s)
      let timePoints := (List.range numFrames).map
        (fun i => ((i * s.HopSize : ℕ) : ℝ) / (s.SampleRate : ℝ))
      let freqPoints := (List.range numBins).map
        (fun i => ((i : ℕ) : ℝ) * (s.SampleRate : ℝ) / (s.WindowSize : ℝ))
      (s, some { Data       := spectrogramData
                 FreqBins   := numBins
                 TimeBins   := numFrames
                 TimePoints := timePoints
                 FreqPoints := freqPoints })

/-! ## Peak extractor (fingerprint package, src/unnamed/part_003) -/

/-- `Peak` from the fingerprint package (the authoritative shape with
indices). -/
structure Peak (α : Type) where
  TimeIndex     : ℕ
  FreqIndex     : ℕ
  Time          : α
  Frequency     : α
  Amplitude     : α
  IsLocalMaxima : Bool
deriving DecidableEq

/-- `PeakExtractor` configuration from the fingerprint package. -/
structure PeakExtractor (α : Type) where
  NeighborhoodSize  : ℕ
  AbsoluteThreshold : α
  RelativeThreshold : α
  MaxPeaksPerFrame  : ℕ
  MinFrequency      : α
  MaxFrequency      : α

variable {α : Type} [LinearOrderedField α]

/-- `spectrogram.Data[t][f]`, with the Go out-of-range panic replaced by
the default `0` (claims only exercise in-range accesses). -/
def entryAt (S : Spectrogram α) (t f : ℕ) : α :=
  (S.Data.getD t []).getD f 0

/-- The global-maximum loop of `ExtractPeaks` (part_003 lines 50-57),
starting from `0` and updating on strictly larger amplitudes. -/
def maxAmplitudeOf (S : Spectrogram α) : α :=
  S.Data.foldl (fun m row => row.foldl (fun m v => if m < v then v else m) m) 0

/-- The effective threshold of `ExtractPeaks` (part_003 lines 59-64):
the absolute threshold, overridden by `maxAmplitude · RelativeThreshold`
when the latter is strictly larger. -/
def effectiveThresholdOf (cfg : PeakExtractor α) (S : Spectrogram α) : α :=
  let rel := maxAmplitudeOf S * cfg.RelativeThreshold
  if cfg.AbsoluteThreshold < rel then rel else cfg.AbsoluteThreshold

/-- The frequency-band loop of `ExtractPeaks` (part_003 lines 66-78),
faithfully including its `minFreqIndex == 0` sentinel guard: walking the
frequency points with index `i`, `minFreqIndex` is set to `i` when the
point is `≥ MinFrequency` *and the index is still `0`*, and the loop
breaks at the first point `> MaxFrequency`, setting `maxFreqIndex` to
`i - 1` (which can be `-1`, hence `ℤ`). -/
def freqBandAux (minFreq maxFreq : α) :
    List α → ℕ → ℕ → ℤ → ℕ × ℤ
  | [], _, mn, mx => (mn, mx)
  | freq :: rest, i, mn, mx =>
    let mn2 := if minFreq ≤ freq ∧ mn = 0 then i else mn
    if maxFreq < freq then (mn2, (i : ℤ) - 1)
    else freqBandAux minFreq maxFreq rest (i + 1) mn2 mx

/-- `(minFreqIndex, maxFreqIndex)` as computed by `ExtractPeaks`:
initial values `0` and `len(FreqPoints) - 1`. -/
def freqBand (minFreq maxFreq : α) (freqPoints : List α) : ℕ × ℤ :=
  freqBandAux minFreq maxFreq freqPoints 0 0 ((freqPoints.length : ℤ) - 1)

/-- The inclusive index range `[minFreqIndex, maxFreqIndex]` scanned by
the per-frame loop (`for f := minFreqIndex; f <= maxFreqIndex; f++`);
empty when `maxFreqIndex < minFreqIndex`. -/
def bandIndices (band : ℕ × ℤ) : List ℕ :=
  List.range' band.1 (band.2 + 1 - band.1).toNat

/-- The neighbourhood offsets `-Δ .. Δ` of the local-maximum check. -/
def deltas (nbhd : ℕ) : List ℤ :=
  (List.range (2 * nbhd + 1)).map (fun i => ((i : ℕ) : ℤ) - (nbhd : ℤ))

/-- One neighbour test of the local-maximum check (part_003 lines
99-120): the centre offset is skipped, out-of-bounds neighbours (bounds
taken from the `TimeBins`/`FreqBins` fields, as in the source) are
ignored, and an in-bounds neighbour disqualifies exactly when its
amplitude is strictly greater. -/
def neighborOk (S : Spectrogram α) (t f : ℕ) (amp : α) (dt df : ℤ) : Bool :=
  if dt = 0 ∧ df = 0 then true
  else
    let nt := (t : ℤ) + dt
    let nf := (f : ℤ) + df
    if 0 ≤ nt ∧ nt < (S.TimeBins : ℤ) ∧ 0 ≤ nf ∧ nf < (S.FreqBins : ℤ) then
      decide (entryAt S nt.toNat nf.toNat ≤ amp)
    else true

/-- The full local-maximum check over the `(2Δ+1)²` neighbourhood. -/
def isLocalMaxAt (S : Spectrogram α) (nbhd t f : ℕ) (amp : α) : Bool :=
  (deltas nbhd).all (fun dt => (deltas nbhd).all (fun df => neighborOk S t f amp dt df))

/-- The surviving candidates of frame `t` (part_003 lines 86-134): band
bins whose amplitude reaches the effective threshold and which pass the
local-maximum check, turned into `Peak` records. -/
def frameCandidates (cfg : PeakExtractor α) (S : Spectrogram α) (t : ℕ) : List (Peak α) :=
  let θ := effectiveThresholdOf cfg S
  let band := bandIndices (freqBand cfg.MinFrequency cfg.MaxFrequency S.FreqPoints)
  (band.filter (fun f =>
      decide (θ ≤ entryAt S t f) && isLocalMaxAt S cfg.NeighborhoodSize t f (entryAt S t f))).map
    (fun f =>
      { TimeIndex     := t
        FreqIndex     := f
        Time          := S.TimePoints.getD t 0
        Frequency     := S.FreqPoints.getD f 0
        Amplitude     := entryAt S t f
        IsLocalMaxima := true })

/-- The amplitude-descending order used by the per-frame
`sort.Slice` (part_003 lines 138-140). -/
def ampGE (p q : Peak α) : Prop := q.Amplitude ≤ p.Amplitude

instance : DecidableRel (ampGE (α := α)) :=
  fun p q => inferInstanceAs (Decidable (q.Amplitude ≤ p.Amplitude))

instance : IsTotal (Peak α) ampGE :=
  ⟨fun p q => (le_total q.Amplitude p.Amplitude).imp id id⟩

instance : IsTrans (Peak α) ampGE :=
  ⟨fun _ _ _ h h2 => le_trans h2 h⟩

/-- The peaks kept for frame `t` (part_003 lines 136-149): the surviving
candidates sorted by amplitude descending, truncated to
`MaxPeaksPerFrame`.  The Go `sort.Slice` is unstable, so the order among
equal amplitudes is unspecified there; insertion sort realises one such
order (all claims are insensitive to tie order). -/
def framePeaksKept (cfg : PeakExtractor α) (S : Spectrogram α) (t : ℕ) : List (Peak α) :=
  (List.insertionSort ampGE (frameCandidates cfg S t)).take cfg.MaxPeaksPerFrame

/-- `ExtractPeaks` from part_003 lines 44-153: fails on an empty
spectrogram, else concatenates the kept peaks of each frame in time
order. -/
def ExtractPeaks (cfg : PeakExtractor α) (S : Spectrogram α) : Option (List (Peak α)) :=
  if S.Data.isEmpty ∨ (S.Data.getD 0 []).isEmpty then none
  else some ((List.range S.TimeBins).flatMap (fun t => framePeaksKept cfg S t))

/-! ## Concrete instances used by the claim witnesses and counterexamples -/

/-- The concrete spectrogram of the C3 witness: a single `1 × 1` cell of
amplitude `5`. -/
def SC3 : Spectrogram ℚ := ⟨[[5]], 1, 1, [0], [0]⟩

/-- The concrete configuration of the C3 witness. -/
def cfgC3 : PeakExtractor ℚ := ⟨1, 0, 0, 5, 0, 0⟩

/-- The single peak extracted in the C3 witness. -/
def pkC3 : Peak ℚ := ⟨0, 0, 0, 0, 5, true⟩

/-- The concrete spectrogram of the C8 witness: one frame with three
bins `[3, 7, 5]`, of which bins 1 and 2 are in the configured band. -/
def SC8 : Spectrogram ℚ := ⟨[[3, 7, 5]], 3, 1, [0], [0, 1, 2]⟩

/-- The concrete configuration of the C8 witness: `MaxPeaksPerFrame = 1`
with two surviving candidates, so the cap truncates. -/
def cfgC8 : PeakExtractor ℚ := ⟨0, 0, 0, 1, 1/2, 2⟩

/-- The single kept peak of the C8 witness. -/
def pkC8 : Peak ℚ := ⟨0, 1, 0, 1, 7, true⟩

/-- The all-zero two-sample mono buffer used by the C1 instances. -/
noncomputable def zeroAudio : AudioData := ⟨[0, 0], 44100, 1, 0⟩

/-- The value the default pipeline assigns to a zero power entry:
`log(1e-10)/log(10)`. -/
noncomputable def logZeroEntry : ℝ := Real.log 1e-10 / Real.log 10

/-- The default analyzer with log scaling turned off (`LogScaleBase = 0`),
used by the C1 witness. -/
noncomputable def linearScaleAnalyzer : SpectralAnalyzerImpl :=
  { NewSpectralAnalyzer with LogScaleBase := 0 }

/-! ## Helper lemmas -/

/-- Indexing a mapped `List.range` with `getD` evaluates the function. -/
theorem getD_map_range {β : Type} (g : ℕ → β) {N i : ℕ} (hi : i < N) (d : β) :
    ((List.range N).map g).getD i d = g i := by
  rw [List.getD_eq_getElem?_getD, List.getElem?_map, List.getElem?_range hi]
  rfl

/-! ## Claim C10: RMS / energy relation -/

/-- Claim C10: for every non-empty sample slice `s`, `CalculateRMS s`
equals the square root of `CalculateEnergy s` divided by `len s`, and on
the empty slice both return `0`. -/
theorem CalculateRMS_eq_sqrt_energy (samples : List ℝ) :
    (samples ≠ [] →
      CalculateRMS samples = Real.sqrt (CalculateEnergy samples / (samples.length : ℝ))) ∧
    CalculateRMS [] = 0 ∧ CalculateEnergy [] = 0 := by
  refine ⟨fun h => ?_, rfl, rfl⟩
  simp [CalculateRMS, CalculateEnergy, h]

/-- Witness for C10 at the concrete slice `[1]`. -/
theorem CalculateRMS_eq_sqrt_energy_witness :
    ([(1 : ℝ)] ≠ [] ∧
      CalculateRMS [(1 : ℝ)] =
        Real.sqrt (CalculateEnergy [(1 : ℝ)] / (([(1 : ℝ)].length : ℕ) : ℝ))) :=
  ⟨by simp, (CalculateRMS_eq_sqrt_energy [(1 : ℝ)]).1 (by simp)⟩

/-! ## Claim C7: exact behaviour of Normalize -/

/-- Claim C7: `Normalize` returns its input unchanged when the maximal
absolute sample value `M` satisfies `M < 1e-3` or `|M - 1| < 1e-3`, and
otherwise returns a buffer with every sample divided by `M` and the
sample rate, channel count and duration unchanged. -/
theorem Normalize_spec (x : AudioData) :
    (maxAbsSamples x.Samples < 1e-3 ∨ |maxAbsSamples x.Samples - 1| < 1e-3 →
       Normalize x = x) ∧
    (¬(maxAbsSamples x.Samples < 1e-3 ∨ |maxAbsSamples x.Samples - 1| < 1e-3) →
       (Normalize x).SampleRate = x.SampleRate ∧
       (Normalize x).Channels = x.Channels ∧
       (Normalize x).Duration = x.Duration ∧
       (Normalize x).Samples.length = x.Samples.length ∧
       ∀ i, (Normalize x).Samples.getD i 0 =
         x.Samples.getD i 0 / maxAbsSamples x.Samples) := by
  constructor
  · intro h
    by_cases he : x.Samples.isEmpty
    · simp [Normalize, he]
    · simp [Normalize, he, h]
  · intro h
    have he : ¬x.Samples.isEmpty := by
      intro he
      rw [List.isEmpty_iff] at he
      rw [he] at h
      exact h (Or.inl (by norm_num [maxAbsSamples]))
    have hN : Normalize x =
        { Samples    := x.Samples.map (fun s => s / maxAbsSamples x.Samples)
          SampleRate := x.SampleRate
          Channels   := x.Channels
          Duration   := x.Duration } := by
      simp only [Normalize, he, Bool.false_eq_true, if_false]
      rw [if_neg h]
    rw [hN]
    refine ⟨rfl, rfl, rfl, by simp, fun i => ?_⟩
    rcases lt_or_ge i x.Samples.length with hi | hi
    · rw [List.getD_eq_getElem _ _ (by simpa using hi),
        List.getD_eq_getElem _ _ hi, List.getElem_map]
    · rw [List.getD_eq_default _ _ (by simpa using hi),
        List.getD_eq_default _ _ hi, zero_div]

/-- Witness for C7: `Normalize` on the concrete buffer `⟨[1/2], 44100, 1, 0⟩`
(maximum `1/2`) divides the sample by `1/2`. -/
theorem Normalize_spec_witness :
    ¬(maxAbsSamples ((⟨[(1:ℝ)/2], 44100, 1, 0⟩ : AudioData)).Samples < 1e-3 ∨
        |maxAbsSamples ((⟨[(1:ℝ)/2], 44100, 1, 0⟩ : AudioData)).Samples - 1| < 1e-3) ∧
    (Normalize (⟨[(1:ℝ)/2], 44100, 1, 0⟩ : AudioData)).Samples.getD 0 0 =
      ((⟨[(1:ℝ)/2], 44100, 1, 0⟩ : AudioData)).Samples.getD 0 0 /
        maxAbsSamples ((⟨[(1:ℝ)/2], 44100, 1, 0⟩ : AudioData)).Samples := by
  have hm : maxAbsSamples ((⟨[(1:ℝ)/2], 44100, 1, 0⟩ : AudioData)).Samples = 1/2 := by
    norm_num [maxAbsSamples, abs_of_nonneg]
  have hcond : ¬(maxAbsSamples ((⟨[(1:ℝ)/2], 44100, 1, 0⟩ : AudioData)).Samples < 1e-3 ∨
      |maxAbsSamples ((⟨[(1:ℝ)/2], 44100, 1, 0⟩ : AudioData)).Samples - 1| < 1e-3) := by
    rw [hm]
    norm_num [abs_of_nonpos]
  exact ⟨hcond, ((Normalize_spec ⟨[(1:ℝ)/2], 44100, 1, 0⟩).2 hcond).2.2.2.2 0⟩

/-! ## Claim C6: SegmentIntoFrames -/

/-- Claim C6: `SegmentIntoFrames` fails exactly when there are fewer than
`frameSize` samples; otherwise it returns `1 + (N - W)/H` frames of length
`W`, frame `i` starting at sample `i·H`, zero-padded past the end of the
input. -/
theorem SegmentIntoFrames_spec (samples : List ℝ) (W H : ℕ) (_hH : 0 < H) :
    (SegmentIntoFrames samples W H = none ↔ samples.length < W) ∧
    (W ≤ samples.length →
      ∃ frames, SegmentIntoFrames samples W H = some frames ∧
        frames.length = 1 + (samples.length - W) / H ∧
        (∀ fr ∈ frames, fr.length = W) ∧
        ∀ i < frames.length, ∀ j < W,
          (frames.getD i []).getD j 0 =
            if i * H + j < samples.length then samples.getD (i * H + j) 0 else 0) := by
  constructor
  · constructor
    · intro h
      by_contra hlt
      rw [SegmentIntoFrames, if_neg hlt] at h
      exact Option.noConfusion h
    · intro h
      rw [SegmentIntoFrames, if_pos h]
  · intro hW
    refine ⟨_, by rw [SegmentIntoFrames, if_neg (not_lt.2 hW)], by simp, ?_, ?_⟩
    · intro fr hfr
      rcases List.mem_map.1 hfr with ⟨i, _, rfl⟩
      simp
    · intro i hi j hj
      simp only [List.length_map, List.length_range] at hi
      rw [getD_map_range _ hi, getD_map_range _ hj]
      rcases lt_or_ge (i * H + j) samples.length with hin | hin
      · rw [if_pos hin]
      · rw [if_neg (not_lt.2 hin), List.getD_eq_default _ _ hin]

/-- Witness for C6 at the concrete input `[1, 2, 3]` with `W = 2`,
`H = 2` (one full frame plus one zero-padded frame). -/
theorem SegmentIntoFrames_spec_witness :
    0 < 2 ∧ 2 ≤ [(1:ℝ), 2, 3].length ∧
    (SegmentIntoFrames [(1:ℝ), 2, 3] 2 2 = none ↔ [(1:ℝ), 2, 3].length < 2) := by
  refine ⟨by norm_num, by simp, ((SegmentIntoFrames_spec [(1:ℝ), 2, 3] 2 2 (by norm_num)).1)⟩

/-! ## Claim C9: ComputeSpectrogram mutates its receiver -/

/-- The analyzer state returned by `ComputeSpectrogram`: the window/hop
updates always happen, and for mono input the sample rate is also
overwritten (in every exit path). -/
theorem ComputeSpectrogram_fst (s : SpectralAnalyzerImpl) (data : AudioData)
    (windowSize hopSize : ℕ) :
    (ComputeSpectrogram s data windowSize hopSize).1 =
      (let s1 := if 0 < windowSize then { s with WindowSize := windowSize } else s
       let s2 := if 0 < hopSize then { s1 with HopSize := hopSize } else s1
       if data.Channels ≠ 1 then s2 else { s2 with SampleRate := data.SampleRate }) := by
  rw [ComputeSpectrogram]
  by_cases hch : data.Channels ≠ 1
  · simp [hch]
  · simp only [hch, if_false]
    rcases SegmentIntoFrames data.Samples _ _ with _ | frames <;> rfl

/-- Claim C9: `ComputeSpectrogram` mutates the analyzer's configuration:
after any call with `windowSize > 0` the stored `WindowSize` equals the
argument, likewise `HopSize` for `hopSize > 0`, and for mono input the
stored `SampleRate` is overwritten with the buffer's rate. -/
theorem ComputeSpectrogram_mutates (s : SpectralAnalyzerImpl) (data : AudioData)
    (windowSize hopSize : ℕ) :
    (0 < windowSize →
      ((ComputeSpectrogram s data windowSize hopSize).1).WindowSize = windowSize) ∧
    (0 < hopSize →
      ((ComputeSpectrogram s data windowSize hopSize).1).HopSize = hopSize) ∧
    (data.Channels = 1 →
      ((ComputeSpectrogram s data windowSize hopSize).1).SampleRate = data.SampleRate) := by
  rw [ComputeSpectrogram_fst]
  refine ⟨fun hw => ?_, fun hh => ?_, fun hch => ?_⟩
  · by_cases hh : 0 < hopSize <;> by_cases hch : data.Channels ≠ 1 <;>
      simp [hw, hh, hch]
  · by_cases hw : 0 < windowSize <;> by_cases hch : data.Channels ≠ 1 <;>
      simp [hw, hh, hch]
  · by_cases hw : 0 < windowSize <;> by_cases hh : 0 < hopSize <;>
      simp [hw, hh, hch]

/-- Witness for C9: the default analyzer called with window `4`, hop `2`
on a mono buffer ends up with `WindowSize = 4`, `HopSize = 2` and
`SampleRate = 8000`. -/
theorem ComputeSpectrogram_mutates_witness :
    (0 < 4 →
      ((ComputeSpectrogram NewSpectralAnalyzer ⟨[], 8000, 1, 0⟩ 4 2).1).WindowSize = 4) ∧
    (0 < 2 →
      ((ComputeSpectrogram NewSpectralAnalyzer ⟨[], 8000, 1, 0⟩ 4 2).1).HopSize = 2) ∧
    ((⟨[], 8000, 1, 0⟩ : AudioData).Channels = 1 →
      ((ComputeSpectrogram NewSpectralAnalyzer ⟨[], 8000, 1, 0⟩ 4 2).1).SampleRate = 8000) :=
  ComputeSpectrogram_mutates NewSpectralAnalyzer ⟨[], 8000, 1, 0⟩ 4 2

/-! ## Claim C5: idempotence / fixed points of preprocessing -/

/-- The running-maximum loop of `Normalize` is a `foldl` of `max` over
the absolute values. -/
theorem maxAbsSamples_eq_foldl_max (l : List ℝ) :
    maxAbsSamples l = l.foldl (fun m s => max m |s|) 0 := by
  rw [maxAbsSamples]
  congr 1
  funext m s
  rcases lt_or_ge m |s| with h | h
  · rw [if_pos h, max_eq_right h.le]
  · rw [if_neg (not_lt.2 h), max_eq_left h]

/-- Dividing all samples by a positive constant divides the running
maximum of absolute values by it. -/
theorem foldl_max_abs_map_div (M : ℝ) (hM : 0 < M) (l : List ℝ) :
    ∀ a : ℝ, (l.map (fun s => s / M)).foldl (fun m s => max m |s|) (a / M)
      = (l.foldl (fun m s => max m |s|) a) / M := by
  induction l with
  | nil => intro a; simp
  | cons x xs ih =>
    intro a
    simp only [List.map_cons, List.foldl_cons]
    rw [abs_div, abs_of_pos hM, max_div_div_right hM.le a |x|]
    exact ih (max a |x|)

/-- `maxAbsSamples` after division by a positive constant. -/
theorem maxAbsSamples_map_div (l : List ℝ) (M : ℝ) (hM : 0 < M) :
    maxAbsSamples (l.map (fun s => s / M)) = maxAbsSamples l / M := by
  rw [maxAbsSamples_eq_foldl_max, maxAbsSamples_eq_foldl_max]
  calc (l.map (fun s => s / M)).foldl (fun m s => max m |s|) 0
      = (l.map (fun s => s / M)).foldl (fun m s => max m |s|) (0 / M) := by rw [zero_div]
    _ = (l.foldl (fun m s => max m |s|) 0) / M := foldl_max_abs_map_div M hM l 0

/-- Claim C5: `Normalize` is idempotent and resampling to the input's own
rate is the identity: `Normalize (Normalize x) = Normalize x`, and
`ResampleTo x x.SampleRate = x`. -/
theorem preprocess_fixed_points (x : AudioData) :
    Normalize (Normalize x) = Normalize x ∧ ResampleTo x x.SampleRate = x := by
  constructor
  · by_cases he : x.Samples.isEmpty
    · have h1 : Normalize x = x := by simp [Normalize, he]
      simp only [h1]
    · by_cases hc : maxAbsSamples x.Samples < 1e-3 ∨ |maxAbsSamples x.Samples - 1| < 1e-3
      · have h1 : Normalize x = x := by
          simp only [Normalize, he, Bool.false_eq_true, if_false]
          rw [if_pos hc]
        simp only [h1]
      · have hM : (1e-3 : ℝ) ≤ maxAbsSamples x.Samples :=
          le_of_not_lt fun hlt => hc (Or.inl hlt)
        have hMpos : 0 < maxAbsSamples x.Samples := lt_of_lt_of_le (by norm_num) hM
        have h1 : Normalize x =
            { Samples    := x.Samples.map (fun s => s / maxAbsSamples x.Samples)
              SampleRate := x.SampleRate
              Channels   := x.Channels
              Duration   := x.Duration } := by
          simp only [Normalize, he, Bool.false_eq_true, if_false]
          rw [if_neg hc]
        have hne : x.Samples ≠ [] := fun hnil => he (by simp [hnil])
        have hmax1 : maxAbsSamples
            (x.Samples.map (fun s => s / maxAbsSamples x.Samples)) = 1 := by
          rw [maxAbsSamples_map_div _ _ hMpos, div_self (ne_of_gt hMpos)]
        rw [h1]
        simp only [Normalize]
        rw [if_neg (by simpa [List.isEmpty_iff] using hne), if_pos]
        simp only [hmax1]
        right
        norm_num
  · rw [ResampleTo, if_pos rfl]

/-! ## Claim C4: spectrogram dimensions and axes -/

/-- Claim C4: for mono audio with at least `W` samples and positive
window/hop arguments, `ComputeSpectrogram` succeeds with
`TimeBins = 1 + (N − W)/H` frames, `FreqBins = W/2 + 1` bins, axis arrays
of the same lengths, `TimePoints[t] = t·H / sample_rate` and
`FreqPoints[k] = k·sample_rate / W`. -/
theorem ComputeSpectrogram_dims (s : SpectralAnalyzerImpl) (data : AudioData) (W H : ℕ)
    (hW : 0 < W) (hH : 0 < H) (hch : data.Channels = 1) (hlen : W ≤ data.Samples.length) :
    ∃ sg, (ComputeSpectrogram s data W H).2 = some sg ∧
      sg.TimeBins = 1 + (data.Samples.length - W) / H ∧
      sg.FreqBins = W / 2 + 1 ∧
      sg.TimePoints.length = sg.TimeBins ∧
      sg.FreqPoints.length = sg.FreqBins ∧
      (∀ t < sg.TimeBins,
        sg.TimePoints.getD t 0 = ((t * H : ℕ) : ℝ) / (data.SampleRate : ℝ)) ∧
      (∀ k < sg.FreqBins,
        sg.FreqPoints.getD k 0 = (k : ℝ) * (data.SampleRate : ℝ) / (W : ℝ)) := by
  have hseg : SegmentIntoFrames data.Samples W H =
      some ((List.range (1 + (data.Samples.length - W) / H)).map (fun i =>
        (List.range W).map (fun j => data.Samples.getD (i * H + j) 0))) := by
    rw [SegmentIntoFrames, if_neg (not_lt.2 hlen)]
  rw [ComputeSpectrogram]
  simp only [hch, ne_eq, not_true_eq_false, if_false, hW, if_true, hH]
  rw [hseg]
  refine ⟨_, rfl, ?_, rfl, ?_, ?_, fun t ht => ?_, fun k hk => ?_⟩
  · dsimp only
    rw [List.length_map, List.length_range]
  · dsimp only
    rw [List.length_map, List.length_range]
  · dsimp only
    rw [List.length_map, List.length_range]
  · dsimp only at ht ⊢
    rw [getD_map_range _ ht]
  · dsimp only at hk ⊢
    rw [getD_map_range _ hk]

/-- Witness for C4 at the concrete input `⟨[0,0,0], 100 Hz, mono⟩` with
`W = 2`, `H = 1`. -/
theorem ComputeSpectrogram_dims_witness :
    0 < 2 ∧ 0 < 1 ∧ (⟨[(0:ℝ), 0, 0], 100, 1, 0⟩ : AudioData).Channels = 1 ∧
    2 ≤ (⟨[(0:ℝ), 0, 0], 100, 1, 0⟩ : AudioData).Samples.length ∧
    ∃ sg, (ComputeSpectrogram NewSpectralAnalyzer ⟨[(0:ℝ), 0, 0], 100, 1, 0⟩ 2 1).2 = some sg ∧
      sg.TimeBins = 1 + ((⟨[(0:ℝ), 0, 0], 100, 1, 0⟩ : AudioData).Samples.length - 2) / 1 ∧
      sg.FreqBins = 2 / 2 + 1 ∧
      sg.TimePoints.length = sg.TimeBins ∧
      sg.FreqPoints.length = sg.FreqBins ∧
      (∀ t < sg.TimeBins,
        sg.TimePoints.getD t 0 =
          ((t * 1 : ℕ) : ℝ) / (((⟨[(0:ℝ), 0, 0], 100, 1, 0⟩ : AudioData)).SampleRate : ℝ)) ∧
      (∀ k < sg.FreqBins,
        sg.FreqPoints.getD k 0 =
          (k : ℝ) * (((⟨[(0:ℝ), 0, 0], 100, 1, 0⟩ : AudioData)).SampleRate : ℝ) / (2 : ℝ)) :=
  ⟨by norm_num, by norm_num, rfl, by simp,
    ComputeSpectrogram_dims NewSpectralAnalyzer ⟨[(0:ℝ), 0, 0], 100, 1, 0⟩ 2 1
      (by norm_num) (by norm_num) rfl (by simp)⟩

/-! ## Claim C2: the frequency-band mapping skips bin 0 (code bug)

The `minFreqIndex == 0` sentinel in `ExtractPeaks` means that when bin 0
already satisfies `FreqPoints[0] ≥ MinFrequency`, the guard keeps firing
and `minFreqIndex` ends up at the *next* qualifying index instead of `0`:
the band excludes bin 0, contradicting the spec's "`f_lo` is the first
bin whose frequency ≥ `min_freq`". -/

/-- Claim C2 (failing input): with `FreqPoints = [0, 100]`,
`MinFrequency = 0` and `MaxFrequency = 100`, the code computes
`minFreqIndex = 1` although the first bin whose frequency is
`≥ MinFrequency` is bin `0`; consequently `ExtractPeaks` on a spectrogram
whose only above-threshold local maximum sits at bin 0 returns no peaks
at all. -/
theorem freqBand_skips_qualifying_bin0 :
    (freqBand (0 : ℚ) 100 [0, 100]).1 = 1 ∧
    List.findIdx (fun f => decide ((0 : ℚ) ≤ f)) [0, 100] = 0 ∧
    ExtractPeaks (⟨1, 0, 0, 5, 0, 100⟩ : PeakExtractor ℚ)
        ⟨[[5, 1]], 2, 1, [0], [0, 100]⟩ = some [] := by
  refine ⟨by decide, by decide, ?_⟩
  norm_num [ExtractPeaks, framePeaksKept, frameCandidates, effectiveThresholdOf,
    maxAmplitudeOf, freqBand, freqBandAux, bandIndices, entryAt, isLocalMaxAt,
    neighborOk, deltas, List.range_succ, List.range']

/-! ## Claim C3: thresholds and local maximality of returned peaks -/

/-- Membership in the neighbourhood offset list. -/
theorem mem_deltas {nbhd : ℕ} {d : ℤ} :
    d ∈ deltas nbhd ↔ -(nbhd : ℤ) ≤ d ∧ d ≤ (nbhd : ℤ) := by
  constructor
  · intro hd
    rcases List.mem_map.1 hd with ⟨i, hi, rfl⟩
    rw [List.mem_range] at hi
    omega
  · rintro ⟨h1, h2⟩
    refine List.mem_map.2 ⟨(d + (nbhd : ℤ)).toNat, ?_, ?_⟩
    · rw [List.mem_range]; omega
    · omega

/-- The effective threshold is the maximum of the absolute threshold and
the relative one. -/
theorem effectiveThresholdOf_eq (cfg : PeakExtractor α) (S : Spectrogram α) :
    effectiveThresholdOf cfg S =
      max cfg.AbsoluteThreshold (cfg.RelativeThreshold * maxAmplitudeOf S) := by
  simp only [effectiveThresholdOf]
  rw [mul_comm (maxAmplitudeOf S) cfg.RelativeThreshold]
  rcases lt_or_ge cfg.AbsoluteThreshold (cfg.RelativeThreshold * maxAmplitudeOf S) with h | h
  · rw [if_pos h, max_eq_right h.le]
  · rw [if_neg (not_lt.2 h), max_eq_left h]

/-- Every member of `frameCandidates` sits in frame `t`, reaches the
effective threshold, carries the spectrogram entry as amplitude and
passes the local-maximum check. -/
theorem mem_frameCandidates {cfg : PeakExtractor α} {S : Spectrogram α} {t : ℕ}
    {p : Peak α} (h : p ∈ frameCandidates cfg S t) :
    p.TimeIndex = t ∧
    effectiveThresholdOf cfg S ≤ p.Amplitude ∧
    p.Amplitude = entryAt S t p.FreqIndex ∧
    isLocalMaxAt S cfg.NeighborhoodSize t p.FreqIndex (entryAt S t p.FreqIndex) = true := by
  simp only [frameCandidates] at h
  rcases List.mem_map.1 h with ⟨f, hf, rfl⟩
  rcases List.mem_filter.1 hf with ⟨_, hpred⟩
  rw [Bool.and_eq_true, decide_eq_true_eq] at hpred
  exact ⟨rfl, hpred.1, rfl, hpred.2⟩

/-- Unpacking the local-maximum check: an in-bounds neighbour at a
non-zero offset within the neighbourhood radius is `≤` the candidate. -/
theorem le_of_isLocalMaxAt {S : Spectrogram α} {nbhd t f : ℕ} {amp : α}
    (h : isLocalMaxAt S nbhd t f amp = true) {dt df : ℤ}
    (hdt1 : -(nbhd : ℤ) ≤ dt) (hdt2 : dt ≤ (nbhd : ℤ))
    (hdf1 : -(nbhd : ℤ) ≤ df) (hdf2 : df ≤ (nbhd : ℤ))
    (hne : ¬(dt = 0 ∧ df = 0))
    (hnt0 : 0 ≤ (t : ℤ) + dt) (hnt1 : (t : ℤ) + dt < (S.TimeBins : ℤ))
    (hnf0 : 0 ≤ (f : ℤ) + df) (hnf1 : (f : ℤ) + df < (S.FreqBins : ℤ)) :
    entryAt S ((t : ℤ) + dt).toNat ((f : ℤ) + df).toNat ≤ amp := by
  rw [isLocalMaxAt, List.all_eq_true] at h
  have h1 := h dt (mem_deltas.2 ⟨hdt1, hdt2⟩)
  rw [List.all_eq_true] at h1
  have h2 := h1 df (mem_deltas.2 ⟨hdf1, hdf2⟩)
  simp only [neighborOk] at h2
  rw [if_neg hne, if_pos ⟨hnt0, hnt1, hnf0, hnf1⟩, decide_eq_true_eq] at h2
  exact h2

/-- Every peak of the successful result belongs to some frame's kept
list, hence to that frame's surviving candidates. -/
theorem mem_candidates_of_mem_extract {cfg : PeakExtractor α} {S : Spectrogram α}
    {peaks : List (Peak α)} (hp : ExtractPeaks cfg S = some peaks)
    {p : Peak α} (hmem : p ∈ peaks) :
    ∃ t, t ∈ List.range S.TimeBins ∧ p ∈ frameCandidates cfg S t := by
  rw [ExtractPeaks] at hp
  by_cases hinv : S.Data.isEmpty ∨ (S.Data.getD 0 []).isEmpty
  · rw [if_pos hinv] at hp
    exact Option.noConfusion hp
  · rw [if_neg hinv] at hp
    injection hp with hp
    rw [← hp] at hmem
    rcases List.mem_flatMap.1 hmem with ⟨t, ht, hkept⟩
    exact ⟨t, ht, (List.mem_insertionSort ampGE).1 (List.mem_of_mem_take hkept)⟩

/-- Claim C3: every peak returned by `ExtractPeaks` has amplitude at
least `max(AbsoluteThreshold, RelativeThreshold · max S)` and is `≥`
every in-bounds neighbour within `NeighborhoodSize` bins in both time
and frequency (equal-valued neighbours allowed, strictly greater ones
excluded). -/
theorem ExtractPeaks_threshold_localmax (cfg : PeakExtractor α) (S : Spectrogram α)
    (peaks : List (Peak α)) (hp : ExtractPeaks cfg S = some peaks)
    (p : Peak α) (hmem : p ∈ peaks) :
    max cfg.AbsoluteThreshold (cfg.RelativeThreshold * maxAmplitudeOf S) ≤ p.Amplitude ∧
    ∀ dt df : ℤ,
      -(cfg.NeighborhoodSize : ℤ) ≤ dt → dt ≤ (cfg.NeighborhoodSize : ℤ) →
      -(cfg.NeighborhoodSize : ℤ) ≤ df → df ≤ (cfg.NeighborhoodSize : ℤ) →
      ¬(dt = 0 ∧ df = 0) →
      0 ≤ (p.TimeIndex : ℤ) + dt → (p.TimeIndex : ℤ) + dt < (S.TimeBins : ℤ) →
      0 ≤ (p.FreqIndex : ℤ) + df → (p.FreqIndex : ℤ) + df < (S.FreqBins : ℤ) →
      entryAt S ((p.TimeIndex : ℤ) + dt).toNat ((p.FreqIndex : ℤ) + df).toNat ≤ p.Amplitude := by
  rcases mem_candidates_of_mem_extract hp hmem with ⟨t, _, hcand⟩
  obtain ⟨hT, hθ, hA, hlm⟩ := mem_frameCandidates hcand
  constructor
  · rw [← effectiveThresholdOf_eq]
    exact hθ
  · intro dt df h1 h2 h3 h4 hne hb1 hb2 hb3 hb4
    rw [hT] at hb1 hb2 ⊢
    rw [hA]
    exact le_of_isLocalMaxAt hlm h1 h2 h3 h4 hne hb1 hb2 hb3 hb4

/-- Witness for C3: on the concrete `1 × 1` spectrogram the returned
peak satisfies the thresholds and local-maximum property. -/
theorem ExtractPeaks_threshold_localmax_witness :
    (ExtractPeaks cfgC3 SC3 = some [pkC3] ∧ pkC3 ∈ [pkC3]) ∧
    max cfgC3.AbsoluteThreshold (cfgC3.RelativeThreshold * maxAmplitudeOf SC3) ≤
      pkC3.Amplitude ∧
    ∀ dt df : ℤ,
      -(cfgC3.NeighborhoodSize : ℤ) ≤ dt → dt ≤ (cfgC3.NeighborhoodSize : ℤ) →
      -(cfgC3.NeighborhoodSize : ℤ) ≤ df → df ≤ (cfgC3.NeighborhoodSize : ℤ) →
      ¬(dt = 0 ∧ df = 0) →
      0 ≤ (pkC3.TimeIndex : ℤ) + dt → (pkC3.TimeIndex : ℤ) + dt < (SC3.TimeBins : ℤ) →
      0 ≤ (pkC3.FreqIndex : ℤ) + df → (pkC3.FreqIndex : ℤ) + df < (SC3.FreqBins : ℤ) →
      entryAt SC3 ((pkC3.TimeIndex : ℤ) + dt).toNat ((pkC3.FreqIndex : ℤ) + df).toNat ≤
        pkC3.Amplitude := by
  have h : ExtractPeaks cfgC3 SC3 = some [pkC3] := by
    norm_num [ExtractPeaks, framePeaksKept, frameCandidates, effectiveThresholdOf,
      maxAmplitudeOf, freqBand, freqBandAux, bandIndices, entryAt, isLocalMaxAt,
      neighborOk, deltas, List.range_succ, List.range', SC3, cfgC3, pkC3,
      List.insertionSort, List.orderedInsert]
  exact ⟨⟨h, List.mem_singleton.2 rfl⟩,
    ExtractPeaks_threshold_localmax cfgC3 SC3 [pkC3] h pkC3 (List.mem_singleton.2 rfl)⟩

/-! ## Claim C8: per-frame cap, top-K selection and ordering -/

/-- Every kept peak of frame `t` has `TimeIndex = t`. -/
theorem timeIndex_of_mem_kept {cfg : PeakExtractor α} {S : Spectrogram α} {t : ℕ}
    {p : Peak α} (h : p ∈ framePeaksKept cfg S t) : p.TimeIndex = t :=
  (mem_frameCandidates ((List.mem_insertionSort ampGE).1 (List.mem_of_mem_take h))).1

/-- Filtering `List.range n` for the single value `t`. -/
theorem filter_beq_range (n t : ℕ) :
    (List.range n).filter (fun a => a == t) = if t < n then [t] else [] := by
  induction n with
  | zero => simp
  | succ n ih =>
    rw [List.range_succ, List.filter_append, ih]
    by_cases h : t < n
    · have hne : (n == t) = false := by
        simp only [beq_eq_false_iff_ne, ne_eq]
        omega
      simp only [List.filter_cons, hne, Bool.false_eq_true, if_false, List.filter_nil,
        List.append_nil, if_pos h, if_pos (Nat.lt_succ_of_lt h)]
    · by_cases he : t = n
      · subst he
        simp only [List.filter_cons, beq_self_eq_true, if_true, List.filter_nil,
          if_neg h, List.nil_append, if_pos (Nat.lt_succ_self t)]
      · have hne : (n == t) = false := by
          simp only [beq_eq_false_iff_ne, ne_eq]
          omega
        have h2 : ¬t < n + 1 := by omega
        simp only [List.filter_cons, hne, Bool.false_eq_true, if_false, List.filter_nil,
          List.append_nil, if_neg h, if_neg h2]

/-- Filtering the concatenated result for frame `t` selects exactly the
kept lists of the frames equal to `t`. -/
theorem filter_timeIndex_flatMap (cfg : PeakExtractor α) (S : Spectrogram α) (t : ℕ)
    (l : List ℕ) :
    ((l.flatMap (fun u => framePeaksKept cfg S u)).filter (fun p => p.TimeIndex == t)) =
      (l.filter (fun u => u == t)).flatMap (fun u => framePeaksKept cfg S u) := by
  induction l with
  | nil => rfl
  | cons a l ih =>
    rw [List.flatMap_cons, List.filter_append, ih, List.filter_cons]
    by_cases h : a = t
    · subst h
      rw [if_pos (by simp), List.flatMap_cons]
      congr 1
      refine List.filter_eq_self.2 fun p hp => ?_
      rw [timeIndex_of_mem_kept hp]
      exact beq_self_eq_true a
    · rw [if_neg (by simpa using h)]
      have hnil : (framePeaksKept cfg S a).filter (fun p => p.TimeIndex == t) = [] := by
        refine List.filter_eq_nil_iff.2 fun p hp => ?_
        rw [timeIndex_of_mem_kept hp]
        simpa using h
      rw [hnil, List.nil_append]

/-- On success, the result of `ExtractPeaks` is the concatenation of the
per-frame kept lists. -/
theorem ExtractPeaks_eq_flatMap {cfg : PeakExtractor α} {S : Spectrogram α}
    {peaks : List (Peak α)} (hp : ExtractPeaks cfg S = some peaks) :
    peaks = (List.range S.TimeBins).flatMap (fun u => framePeaksKept cfg S u) := by
  rw [ExtractPeaks] at hp
  by_cases hinv : S.Data.isEmpty ∨ (S.Data.getD 0 []).isEmpty
  · rw [if_pos hinv] at hp
    exact Option.noConfusion hp
  · rw [if_neg hinv] at hp
    injection hp with hp
    exact hp.symm

/-- Claim C8: for every frame `t`, the returned peaks with
`TimeIndex = t` number at most `MaxPeaksPerFrame`, are listed in
descending amplitude order, and are exactly a top-amplitude selection of
that frame's surviving candidates (every dropped candidate has amplitude
`≤` every kept peak); across frames the result is in ascending
`TimeIndex` order. -/
theorem ExtractPeaks_per_frame_cap (cfg : PeakExtractor α) (S : Spectrogram α)
    (peaks : List (Peak α)) (hp : ExtractPeaks cfg S = some peaks)
    (t : ℕ) (ht : t < S.TimeBins) :
    (peaks.filter (fun p => p.TimeIndex == t)).length ≤ cfg.MaxPeaksPerFrame ∧
    (peaks.filter (fun p => p.TimeIndex == t)).Pairwise
      (fun p q => q.Amplitude ≤ p.Amplitude) ∧
    (∃ dropped, (frameCandidates cfg S t).Perm
        ((peaks.filter (fun p => p.TimeIndex == t)) ++ dropped) ∧
      ∀ p ∈ peaks.filter (fun p => p.TimeIndex == t), ∀ c ∈ dropped,
        c.Amplitude ≤ p.Amplitude) ∧
    peaks.Pairwise (fun p q => p.TimeIndex ≤ q.TimeIndex) := by
  have hpeq := ExtractPeaks_eq_flatMap hp
  have hfilter : peaks.filter (fun p => p.TimeIndex == t) = framePeaksKept cfg S t := by
    rw [hpeq, filter_timeIndex_flatMap, filter_beq_range, if_pos ht,
      List.flatMap_cons, List.flatMap_nil, List.append_nil]
  have hsorted : (List.insertionSort ampGE (frameCandidates cfg S t)).Pairwise ampGE :=
    List.sorted_insertionSort ampGE (frameCandidates cfg S t)
  refine ⟨?_, ?_, ⟨(List.insertionSort ampGE (frameCandidates cfg S t)).drop
      cfg.MaxPeaksPerFrame, ?_, ?_⟩, ?_⟩
  · rw [hfilter, framePeaksKept, List.length_take]
    exact min_le_left _ _
  · rw [hfilter, framePeaksKept]
    exact (hsorted.sublist (List.take_sublist _ _)).imp (fun h => h)
  · rw [hfilter, framePeaksKept, List.take_append_drop]
    exact (List.perm_insertionSort ampGE _).symm
  · rw [hfilter, framePeaksKept]
    have hpair : List.Pairwise ampGE
        (List.take cfg.MaxPeaksPerFrame (List.insertionSort ampGE (frameCandidates cfg S t)) ++
          List.drop cfg.MaxPeaksPerFrame (List.insertionSort ampGE (frameCandidates cfg S t))) := by
      rw [List.take_append_drop]
      exact hsorted
    exact fun p hpmem c hcmem => (List.pairwise_append.1 hpair).2.2 p hpmem c hcmem
  · rw [hpeq]
    refine List.pairwise_flatMap.2 ⟨fun a _ => ?_, ?_⟩
    · exact List.pairwise_of_forall_mem_list fun x hx y hy => by
        rw [timeIndex_of_mem_kept hx, timeIndex_of_mem_kept hy]
    · refine List.Pairwise.imp ?_ (List.sorted_lt_range S.TimeBins)
      intro a b hab
      intro x hx y hy
      rw [timeIndex_of_mem_kept hx, timeIndex_of_mem_kept hy]
      exact hab.le

/-- Witness for C8: on the concrete spectrogram, frame `0` keeps a
single peak (the largest of its two candidates) and all the stated
ordering properties hold. -/
theorem ExtractPeaks_per_frame_cap_witness :
    (ExtractPeaks cfgC8 SC8 = some [pkC8] ∧ 0 < SC8.TimeBins) ∧
    (([pkC8].filter (fun p => p.TimeIndex == 0)).length ≤ cfgC8.MaxPeaksPerFrame ∧
     ([pkC8].filter (fun p => p.TimeIndex == 0)).Pairwise
       (fun p q => q.Amplitude ≤ p.Amplitude) ∧
     (∃ dropped, (frameCandidates cfgC8 SC8 0).Perm
         (([pkC8].filter (fun p => p.TimeIndex == 0)) ++ dropped) ∧
       ∀ p ∈ [pkC8].filter (fun p => p.TimeIndex == 0), ∀ c ∈ dropped,
         c.Amplitude ≤ p.Amplitude) ∧
     [pkC8].Pairwise (fun p q => p.TimeIndex ≤ q.TimeIndex)) := by
  have h : ExtractPeaks cfgC8 SC8 = some [pkC8] := by
    norm_num [ExtractPeaks, framePeaksKept, frameCandidates, effectiveThresholdOf,
      maxAmplitudeOf, freqBand, freqBandAux, bandIndices, entryAt, isLocalMaxAt,
      neighborOk, deltas, List.range_succ, List.range', SC8, cfgC8, pkC8,
      List.insertionSort, List.orderedInsert, ampGE]
  exact ⟨⟨h, by norm_num [SC8]⟩,
    ExtractPeaks_per_frame_cap cfgC8 SC8 [pkC8] h 0 (by norm_num [SC8])⟩

/-! ## Claim C1: spectrogram non-negativity

With log scaling enabled (the default: `LogScaleBase = 10`), a power
value below `1 − 1e-10` is mapped to a *negative* log value, and
`NormalizeSpectrum` leaves an all-non-positive frame unchanged (its
running maximum starts at `0`), so the claim fails on the code.  Without
log scaling the values are squared magnitudes, optionally divided by a
positive maximum, hence non-negative — the amended claim. -/

/-- Every power-spectrum entry is a squared magnitude, hence
non-negative. -/
theorem ComputePowerSpectrum_nonneg (x : List ℂ) :
    ∀ v ∈ ComputePowerSpectrum x, 0 ≤ v := by
  intro v hv
  rw [ComputePowerSpectrum] at hv
  rcases List.mem_map.1 hv with ⟨i, _, rfl⟩
  exact pow_nonneg (AbsoluteValue.nonneg _ _) 2

/-- `NormalizeSpectrum` preserves non-negativity: either the spectrum is
returned unchanged, or it is divided by a maximum `≥ 1e-10 > 0`. -/
theorem NormalizeSpectrum_nonneg {l : List ℝ} (h : ∀ v ∈ l, 0 ≤ v) :
    ∀ v ∈ NormalizeSpectrum l, 0 ≤ v := by
  intro v hv
  rw [NormalizeSpectrum] at hv
  by_cases hm : spectrumMax l < 1e-10
  · rw [if_pos hm] at hv
    exact h v hv
  · rw [if_neg hm] at hv
    rcases List.mem_map.1 hv with ⟨u, hu, rfl⟩
    have hpos : (0 : ℝ) < spectrumMax l :=
      lt_of_lt_of_le (by norm_num) (le_of_not_lt hm)
    exact div_nonneg (h u hu) hpos.le

/-- With log scaling disabled, every per-frame pipeline output value is
non-negative. -/
theorem processFrame_nonneg (s : SpectralAnalyzerImpl) (hlog : s.LogScaleBase ≤ 1)
    (frame : List ℝ) : ∀ v ∈ processFrame s frame, 0 ≤ v := by
  simp only [processFrame]
  rw [if_neg (not_lt.2 hlog)]
  by_cases hn : s.NormalizeSpec = true
  · rw [if_pos hn]
    exact NormalizeSpectrum_nonneg (ComputePowerSpectrum_nonneg _)
  · rw [if_neg hn]
    exact ComputePowerSpectrum_nonneg _

/-- Non-negativity of all entries follows once the spectrogram data is
known to be the per-frame pipeline output of an analyzer without log
scaling. -/
theorem nonneg_of_data_eq {s3 : SpectralAnalyzerImpl} {frames : List (List ℝ)}
    {sg : Spectrogram ℝ} (hlog : s3.LogScaleBase ≤ 1)
    (hdata : sg.Data = frames.map (processFrame s3)) :
    ∀ row ∈ sg.Data, ∀ v ∈ row, 0 ≤ v := by
  intro row hrow
  rw [hdata] at hrow
  rcases List.mem_map.1 hrow with ⟨frame, _, rfl⟩
  exact processFrame_nonneg s3 hlog frame

/-- Claim C1 (amended): when log scaling is disabled
(`LogScaleBase ≤ 1`), every entry of every spectrogram returned by
`ComputeSpectrogram` is non-negative.  (Under the default configuration
with `LogScaleBase = 10` this fails; see the counterexample.) -/
theorem ComputeSpectrogram_nonneg (s : SpectralAnalyzerImpl) (data : AudioData)
    (w h : ℕ) (sg : Spectrogram ℝ) (hlog : s.LogScaleBase ≤ 1)
    (hsg : (ComputeSpectrogram s data w h).2 = some sg) :
    ∀ row ∈ sg.Data, ∀ v ∈ row, 0 ≤ v := by
  rw [ComputeSpectrogram] at hsg
  by_cases hch : data.Channels ≠ 1
  · rw [if_pos hch] at hsg
    simp at hsg
  · rw [if_neg hch] at hsg
    by_cases hw : 0 < w <;> by_cases hh : 0 < h
    all_goals
      simp only [hw, hh, if_true, if_false] at hsg
      split at hsg
      · simp at hsg
      · rename_i frames heq
        dsimp only at hsg
        injection hsg with hsg
        subst hsg
        exact nonneg_of_data_eq (by simpa using hlog) rfl

/-- Framing the two zero samples with `W = 2`, `H = 1` gives one all-zero
frame. -/
theorem SegmentIntoFrames_zero2 : SegmentIntoFrames [(0 : ℝ), 0] 2 1 = some [[0, 0]] := by
  rw [SegmentIntoFrames]
  norm_num [List.range_succ]

/-- Windowing an all-zero frame gives an all-zero frame (the window
coefficients are multiplied by `0`). -/
theorem ApplyWindow_zero2 (s : SpectralAnalyzerImpl) (hws : s.WindowSize = 2) :
    ApplyWindow s [0, 0] = [0, 0] := by
  simp [ApplyWindow, hws, List.range_succ]

/-- The DFT of the zero signal is zero. -/
theorem dft_zero2 : dft [(0 : ℂ), 0] = [0, 0] := by
  simp [dft, List.range_succ, Finset.sum_range_succ]

theorem ComputeFFT_zero2 : ComputeFFT [(0 : ℝ), 0] = [0, 0] := by
  rw [ComputeFFT]
  norm_num [dft_zero2]

theorem ComputePowerSpectrum_zero2 : ComputePowerSpectrum [(0 : ℂ), 0] = [0, 0] := by
  simp [ComputePowerSpectrum, List.range_succ]

theorem logZeroEntry_neg : logZeroEntry < 0 :=
  div_neg_of_neg_of_pos (Real.log_neg (by norm_num) (by norm_num))
    (Real.log_pos (by norm_num))

/-- Log scaling with base `10` maps the zero spectrum to the negative
constant `logZeroEntry`. -/
theorem ApplyLogScale_base10_zero2 (s : SpectralAnalyzerImpl) (hb : s.LogScaleBase = 10) :
    ApplyLogScale s [0, 0] = [logZeroEntry, logZeroEntry] := by
  rw [ApplyLogScale, if_neg (by rw [hb]; norm_num)]
  simp [hb, logZeroEntry]

/-- `NormalizeSpectrum` leaves a pair of equal negative values
unchanged: the running maximum stays `0 < 1e-10`. -/
theorem NormalizeSpectrum_neg_pair {c : ℝ} (hc : c < 0) :
    NormalizeSpectrum [c, c] = [c, c] := by
  have hmax : spectrumMax [c, c] = 0 := by
    simp [spectrumMax, hc.not_lt]
  rw [NormalizeSpectrum, if_pos (by rw [hmax]; norm_num)]

theorem NormalizeSpectrum_zero2 : NormalizeSpectrum [(0 : ℝ), 0] = [0, 0] := by
  have hmax : spectrumMax [(0 : ℝ), 0] = 0 := by
    simp [spectrumMax]
  rw [NormalizeSpectrum, if_pos (by rw [hmax]; norm_num)]

/-- The default per-frame pipeline (log base 10, normalization on) maps
the all-zero frame to two copies of the negative `logZeroEntry`. -/
theorem processFrame_default_zero2 (s : SpectralAnalyzerImpl)
    (hws : s.WindowSize = 2) (hb : s.LogScaleBase = 10) (hn : s.NormalizeSpec = true) :
    processFrame s [0, 0] = [logZeroEntry, logZeroEntry] := by
  simp only [processFrame]
  rw [ApplyWindow_zero2 s hws, ComputeFFT_zero2, ComputePowerSpectrum_zero2,
    if_pos (show (1 : ℝ) < s.LogScaleBase by rw [hb]; norm_num),
    ApplyLogScale_base10_zero2 s hb, if_pos hn,
    NormalizeSpectrum_neg_pair logZeroEntry_neg]

/-- The per-frame pipeline with log scaling disabled maps the all-zero
frame to the all-zero spectrum. -/
theorem processFrame_linear_zero2 (s : SpectralAnalyzerImpl)
    (hws : s.WindowSize = 2) (hb : s.LogScaleBase = 0) (hn : s.NormalizeSpec = true) :
    processFrame s [0, 0] = [0, 0] := by
  simp only [processFrame]
  rw [ApplyWindow_zero2 s hws, ComputeFFT_zero2, ComputePowerSpectrum_zero2,
    if_neg (show ¬(1 : ℝ) < s.LogScaleBase by rw [hb]; norm_num),
    if_pos hn, NormalizeSpectrum_zero2]

/-- Evaluating `ComputeSpectrogram` on the all-zero buffer with `W = 2`,
`H = 1`, for an arbitrary starting configuration. -/
theorem ComputeSpectrogram_zeroAudio (s : SpectralAnalyzerImpl) :
    ComputeSpectrogram s zeroAudio 2 1 =
      ({ s with WindowSize := 2, HopSize := 1, SampleRate := 44100 },
        some { Data := [processFrame
                  { s with WindowSize := 2, HopSize := 1, SampleRate := 44100 } [0, 0]]
               FreqBins := 2
               TimeBins := 1
               TimePoints := [0]
               FreqPoints := [0, 22050] }) := by
  rw [ComputeSpectrogram]
  rw [if_pos (by norm_num : (0 : ℕ) < 2), if_pos (by norm_num : (0 : ℕ) < 1),
    if_neg (show ¬zeroAudio.Channels ≠ 1 by norm_num [zeroAudio])]
  dsimp only [zeroAudio]
  rw [SegmentIntoFrames_zero2]
  refine Prod.ext rfl (congrArg some ?_)
  simp only [Spectrogram.mk.injEq]
  norm_num [List.range_succ]

/-- Claim C1 is false as stated: under the default analyzer
configuration (`LogScaleBase = 10`, `NormalizeSpec = true`), the
spectrogram of the all-zero two-sample mono buffer has the negative
entry `log(1e-10)/log(10)` at `[0][0]`. -/
theorem ComputeSpectrogram_default_negative_entry :
    ((((ComputeSpectrogram NewSpectralAnalyzer zeroAudio 2 1).2).getD
        { Data := [], FreqBins := 0, TimeBins := 0, TimePoints := [], FreqPoints := [] }).Data.getD
      0 []).getD 0 0 < 0 := by
  rw [ComputeSpectrogram_zeroAudio, processFrame_default_zero2 _ rfl rfl rfl]
  simpa using logZeroEntry_neg

/-- Witness for the amended C1: with log scaling disabled, the
spectrogram of the all-zero buffer is computed and all its entries are
non-negative. -/
theorem ComputeSpectrogram_nonneg_witness :
    linearScaleAnalyzer.LogScaleBase ≤ 1 ∧
    (ComputeSpectrogram linearScaleAnalyzer zeroAudio 2 1).2 =
      some { Data := [[0, 0]], FreqBins := 2, TimeBins := 1,
             TimePoints := [0], FreqPoints := [0, 22050] } ∧
    ∀ row ∈ ({ Data := [[0, 0]], FreqBins := 2, TimeBins := 1,
               TimePoints := [0], FreqPoints := [0, 22050] } : Spectrogram ℝ).Data,
      ∀ v ∈ row, 0 ≤ v := by
  have heval : (ComputeSpectrogram linearScaleAnalyzer zeroAudio 2 1).2 =
      some { Data := [[0, 0]], FreqBins := 2, TimeBins := 1,
             TimePoints := [0], FreqPoints := [0, 22050] } := by
    rw [ComputeSpectrogram_zeroAudio, processFrame_linear_zero2 _ rfl rfl rfl]
  exact ⟨by norm_num [linearScaleAnalyzer, NewSpectralAnalyzer], heval,
    ComputeSpectrogram_nonneg linearScaleAnalyzer zeroAudio 2 1 _
      (by norm_num [linearScaleAnalyzer, NewSpectralAnalyzer]) heval⟩

end Shazam
